import Mathlib

/-!
Shallow embedding of the Go multiplayer template: the relay server
(the unnamed server source) and the client (main.go).

Strings on the wire are modelled as lists of characters; Go maps are
modelled as association lists (insertion order recorded, irrelevant to
the properties); float64 positions are modelled as rationals, with the
fixed 2-digit decimal formatting of fmt %.2f made explicit.
-/

abbrev GoStr := List Char

/-- unicode.IsSpace on the code points Go's TrimSpace can meet here
    (tab, lf, vt, ff, cr, space, nel, nbsp). -/
def isSpaceCh (c : Char) : Bool := decide (c.toNat ∈ [9, 10, 11, 12, 13, 32, 133, 160])

def isDigitCh (c : Char) : Bool := decide (48 ≤ c.toNat ∧ c.toNat ≤ 57)

/-- strings.Split with a one-character separator. -/
def splitChar (sep : Char) : List Char → List (List Char)
  | [] => [[]]
  | c :: rest =>
    let r := splitChar sep rest
    if c = sep then [] :: r else (c :: r.headD []) :: r.tail

def dropTrailing (p : Char → Bool) (l : List Char) : List Char :=
  (l.reverse.dropWhile p).reverse

/-- strings.TrimSpace. -/
def goTrimSpace (l : List Char) : List Char := dropTrailing isSpaceCh (l.dropWhile isSpaceCh)

def digitChar (n : ℕ) : Char := Char.ofNat (48 + n)

def natDigitsAux : ℕ → ℕ → List Char
  | 0, _ => []
  | fuel + 1, n =>
    if n < 10 then [digitChar n] else natDigitsAux fuel (n / 10) ++ [digitChar (n % 10)]

/-- Decimal digits of a natural number, most significant first. -/
def natDigits (n : ℕ) : List Char := natDigitsAux (n + 1) n

def digitsVal (l : List Char) : ℕ := l.foldl (fun a c => 10 * a + (c.toNat - 48)) 0

def splitSign (cs : List Char) : Bool × List Char :=
  match cs with
  | [] => (false, cs)
  | c :: r => if c = '-' then (true, r) else if c = '+' then (false, r) else (false, cs)

/-- The rational denoted by sign, integer digits and fraction digits. -/
def decimalVal (neg : Bool) (ip fp : List Char) : ℚ :=
  Rat.divInt ((if neg then -1 else 1) * ((digitsVal ip : ℤ) * 10 ^ fp.length + (digitsVal fp : ℤ)))
    (10 ^ fp.length)

/-- The decimal subset of Go strconv.ParseFloat: optional sign, integer
    digits, optional point and fraction digits, at least one digit in all.
    Exponent, hex, inf and NaN forms never occur on this wire. -/
def parseDecimal? (cs : List Char) : Option ℚ :=
  let sr := splitSign cs
  match splitChar '.' sr.2 with
  | [ip] => if !ip.isEmpty && ip.all isDigitCh then some (decimalVal sr.1 ip []) else none
  | [ip, fp] =>
    if (!ip.isEmpty || !fp.isEmpty) && ip.all isDigitCh && fp.all isDigitCh then
      some (decimalVal sr.1 ip fp)
    else none
  | _ => none

/-- strconv.Atoi: optional sign then digits (overflow of int64 cannot occur
    for the lengths on this wire). -/
def parseInt? (cs : List Char) : Option ℤ :=
  let sr := splitSign cs
  if !sr.2.isEmpty && sr.2.all isDigitCh then
    some (if sr.1 then -(digitsVal sr.2 : ℤ) else (digitsVal sr.2 : ℤ))
  else none

/-- strconv.ParseFloat with the error discarded, as in receiveUpdates:
    Go leaves the zero value in x on error. -/
def goParseFloat (cs : List Char) : ℚ := (parseDecimal? cs).getD 0

/-- strconv.Atoi with the error discarded. -/
def goAtoi (cs : List Char) : ℤ := (parseInt? cs).getD 0

def trueStrings : List GoStr := ["1", "t", "T", "TRUE", "true", "True"].map String.toList

/-- strconv.ParseBool with the error discarded: every accepted false form
    and every rejected form both leave the zero value false. -/
def goParseBool (cs : List Char) : Bool := trueStrings.contains cs

def pad2 (n : ℕ) : List Char := if n < 10 then ['0', digitChar n] else natDigits n

/-- Rounding to the nearest integer, ties to even, used to model the
    decimal rounding of fmt %.2f. -/
def rndNE (q : ℚ) : ℤ :=
  let f := ⌊q⌋
  if q - f < 1/2 then f else if q - f > 1/2 then f + 1 else if f % 2 = 0 then f else f + 1

def fmtZ2 (z : ℤ) : List Char :=
  (if z < 0 then ['-'] else []) ++ natDigits (z.natAbs / 100) ++ '.' :: pad2 (z.natAbs % 100)

/-- fmt %.2f on the rationally modelled float. -/
def fmtF2 (q : ℚ) : List Char := fmtZ2 (rndNE (q * 100))

/-- The value a position coordinate keeps after the 2-digit decimal wire trip. -/
def round2 (q : ℚ) : ℚ := ((rndNE (q * 100) : ℤ) : ℚ) / 100

/-- fmt %d. -/
def fmtInt (d : ℤ) : List Char := (if d < 0 then ['-'] else []) ++ natDigits d.natAbs

/-- fmt %v on a bool. -/
def fmtBool (b : Bool) : List Char := if b then "true".toList else "false".toList

/-! ## Relay server (Server, handleClient, broadcast) -/

abbrev Conn := ℕ

structure Server where
  clients : List (Conn × String)
  deriving DecidableEq

def clientsLookup (l : List (Conn × String)) (c : Conn) : Option String :=
  (l.find? (fun p => p.1 == c)).map Prod.snd

/-- Go map assignment s.clients[conn] = id. -/
def mapInsert (l : List (Conn × String)) (c : Conn) (id : String) : List (Conn × String) :=
  if (clientsLookup l c).isSome then l.map (fun p => if p.1 == c then (c, id) else p)
  else l ++ [(c, id)]

/-- Go map delete(s.clients, conn). -/
def mapDelete (l : List (Conn × String)) (c : Conn) : List (Conn × String) :=
  l.filter (fun p => p.1 != c)

/-- handleClient: clientID := fmt.Sprintf("player%d", len(s.clients)+1). -/
def assignID (s : Server) : String := "player" ++ Nat.repr (s.clients.length + 1)

/-- handleClient's registration: derive the identity from the live client
    count, then insert the mapping. -/
def register (s : Server) (c : Conn) : Server × String :=
  let id := assignID s
  (⟨mapInsert s.clients c id⟩, id)

/-- handleClient's removal on read error: delete(s.clients, conn). -/
def unregister (s : Server) (c : Conn) : Server := ⟨mapDelete s.clients c⟩

def snapshotConns (s : Server) : List Conn := s.clients.map Prod.fst

/-- broadcast: fmt.Fprint to every registered conn; a write error is only
    logged and the registry is untouched. Each triple records
    (conn, message, whether the write succeeded). -/
def broadcastWrites (s : Server) (failing : Conn → Bool) (message : String) :
    List (Conn × String × Bool) :=
  s.clients.map (fun p => (p.1, message, !failing p.1))

/-- handleClient: fmt.Sprintf("%s,%s", clientID, message). -/
def prefixMessage (id message : String) : String := id ++ "," ++ message

/-- One iteration of handleClient's read loop: a failed read unregisters the
    conn and ends the loop (third component true); a successful read
    broadcasts the identity-prefixed message and continues. -/
def relayStep (s : Server) (c : Conn) (id : String) (readRes : Option String)
    (failing : Conn → Bool) : Server × List (Conn × String × Bool) × Bool :=
  match readRes with
  | none => (unregister s c, [], true)
  | some msg => (s, broadcastWrites s failing (prefixMessage id msg), false)

inductive SrvOp where
  | reg (c : Conn)
  | unreg (c : Conn)
  deriving DecidableEq

def applySrvOp (s : Server) : SrvOp → Server
  | SrvOp.reg c => (register s c).1
  | SrvOp.unreg c => unregister s c

def applySrvOps (s : Server) (ops : List SrvOp) : Server := ops.foldl applySrvOp s

/-- Run a sequence of registrations and removals, recording every identity
    handed out by register. -/
def runSrvOps : Server × List String → List SrvOp → Server × List String
  | acc, [] => acc
  | acc, SrvOp.reg c :: rest =>
    runSrvOps ((register acc.1 c).1, acc.2 ++ [(register acc.1 c).2]) rest
  | acc, SrvOp.unreg c :: rest => runSrvOps (unregister acc.1 c, acc.2) rest

/-! ## Client (main.go) -/

structure Vector2f where
  x : ℚ
  y : ℚ
  deriving DecidableEq

structure Character (Tex : Type) where
  bodyTexture : Tex
  headTexture : Tex
  position : Vector2f
  moveSpeed : ℚ
  animationSpeed : ℚ
  frameIndex : ℤ
  direction : ℤ
  timeSinceLastFrame : ℚ
  isMoving : Bool
  deriving DecidableEq

/-- NewCharacter from main.go; timeSinceLastFrame keeps Go's zero value. -/
def NewCharacter {Tex : Type} (bodyTexture headTexture : Tex) (startPos : Vector2f) :
    Character Tex :=
  { bodyTexture := bodyTexture, headTexture := headTexture, position := startPos,
    moveSpeed := 200, animationSpeed := mkRat 1 10, frameIndex := 0, direction := 0,
    timeSinceLastFrame := 0, isMoving := false }

/-- g.otherPlayers, the remote state cache. -/
abbrev Cache (Tex : Type) := List (GoStr × Character Tex)

def cacheLookup {Tex : Type} (m : Cache Tex) (id : GoStr) : Option (Character Tex) :=
  (m.find? (fun p => p.1 == id)).map Prod.snd

def cacheModify {Tex : Type} (m : Cache Tex) (id : GoStr) (f : Character Tex → Character Tex) :
    Cache Tex :=
  m.map (fun p => if p.1 == id then (p.1, f p.2) else p)

/-- The identity receiveUpdates compares against to skip a record. -/
def localSentinel : GoStr := "local".toList

/-- The parse of one comma-separated record in receiveUpdates:
    (id, x, y, direction, isMoving), with every strconv error discarded;
    a record that does not split into 5 fields is skipped. -/
def decodeFields (rec : GoStr) : Option (GoStr × ℚ × ℚ × ℤ × Bool) :=
  let data := splitChar ',' rec
  if data.length = 5 then
    some (data.headD [], goParseFloat (data.getD 1 []), goParseFloat (data.getD 2 []),
      goAtoi (data.getD 3 []), goParseBool (data.getD 4 []))
  else none

/-- The body of receiveUpdates' inner loop for one record: create the entry
    with NewCharacter when absent, then overwrite position, direction and
    isMoving. -/
def applyRecord {Tex : Type} (tb th : Tex) (m : Cache Tex) (rec : GoStr) : Cache Tex :=
  match decodeFields rec with
  | none => m
  | some (id, x, y, d, b) =>
    if id != localSentinel then
      cacheModify (if (cacheLookup m id).isSome then m else m ++ [(id, NewCharacter tb th ⟨x, y⟩)])
        id (fun ch => { ch with position := ⟨x, y⟩, direction := d, isMoving := b })
    else m

/-- The framing of receiveUpdates: TrimSpace the line, split on ";". -/
def frameRecords (msg : GoStr) : List GoStr := splitChar ';' (goTrimSpace msg)

/-- One iteration of receiveUpdates for one received line. -/
def processMessage {Tex : Type} (tb th : Tex) (m : Cache Tex) (msg : GoStr) : Cache Tex :=
  (frameRecords msg).foldl (applyRecord tb th) m

def processAll {Tex : Type} (tb th : Tex) (m : Cache Tex) (msgs : List GoStr) : Cache Tex :=
  msgs.foldl (processMessage tb th) m

/-- A record in this line is a well-formed, unfiltered update for id. -/
def updatesFor (id : GoStr) (rec : GoStr) : Bool :=
  match decodeFields rec with
  | none => false
  | some (i, _, _, _, _) => i == id && i != localSentinel

def receivedIn (id : GoStr) (msg : GoStr) : Bool := (frameRecords msg).any (updatesFor id)

def receivedAny (id : GoStr) (msgs : List GoStr) : Bool := msgs.any (receivedIn id)

/-- handleInput line 151: fmt.Fprintf(g.conn, "%.2f,%.2f,%d,%v\n", ...). -/
def encodeState (x y : ℚ) (d : ℤ) (b : Bool) : GoStr :=
  fmtF2 x ++ ',' :: fmtF2 y ++ ',' :: fmtInt d ++ ',' :: fmtBool b ++ ['\n']

structure KeyState where
  up : Bool
  down : Bool
  left : Bool
  right : Bool
  deriving DecidableEq

structure GameLocal (Tex : Type) where
  localPlayer : Character Tex
  deriving DecidableEq

/-- handleInput's movement and direction logic, yielding the updated local
    player and the record handed to fmt.Fprintf. -/
def handleInput {Tex : Type} (g : GameLocal Tex) (keys : KeyState) (dt : ℚ) :
    GameLocal Tex × GoStr :=
  let pl := g.localPlayer
  let movement : Vector2f := ⟨0, 0⟩
  let pl := { pl with isMoving := false }
  let mp :=
    if keys.up then (⟨movement.x, movement.y - pl.moveSpeed * dt⟩,
      { pl with direction := 0, isMoving := true })
    else (movement, pl)
  let mp :=
    if keys.down then (⟨mp.1.x, mp.1.y + mp.2.moveSpeed * dt⟩,
      { mp.2 with direction := 2, isMoving := true })
    else mp
  let mp :=
    if keys.left then (⟨mp.1.x - mp.2.moveSpeed * dt, mp.1.y⟩,
      { mp.2 with direction := 1, isMoving := true })
    else mp
  let mp :=
    if keys.right then (⟨mp.1.x + mp.2.moveSpeed * dt, mp.1.y⟩,
      { mp.2 with direction := 3, isMoving := true })
    else mp
  let pl := { mp.2 with position := ⟨mp.2.position.x + mp.1.x, mp.2.position.y + mp.1.y⟩ }
  (⟨pl⟩, encodeState pl.position.x pl.position.y pl.direction pl.isMoving)

inductive WriteResult where
  | ok (n : ℕ)
  | failed (e : GoStr)
  deriving DecidableEq

/-- handleInput including its trailing write: both results of fmt.Fprintf
    are discarded, so the tick reports no error whatever the write outcome. -/
def handleInputTick {Tex : Type} (g : GameLocal Tex) (keys : KeyState) (dt : ℚ)
    (w : WriteResult) : GameLocal Tex × GoStr × Option GoStr :=
  let gr := handleInput g keys dt
  (gr.1, gr.2, none)

/-! ## Claims -/

/-- C1: handleClient derives the identity from the live client count
    (len(s.clients)+1), so identities are neither monotonic nor
    collision-free for the process lifetime: after register conn 1
    (issued player1), unregister conn 1, register conn 2, the identity
    player1 has been issued twice. -/
theorem registry_reissues_identity :
    (runSrvOps (⟨[]⟩, []) [SrvOp.reg 1, SrvOp.unreg 1, SrvOp.reg 2]).2 = ["player1", "player1"]
    ∧ ¬ (runSrvOps (⟨[]⟩, []) [SrvOp.reg 1, SrvOp.unreg 1, SrvOp.reg 2]).2.Nodup := by
  decide

/-- C2: receiveUpdates discards every strconv error and checks no range,
    so a 5-field record with a non-numeric position, an out-of-range
    facing code and a non-boolean movement field still produces a state
    (x defaulted to 0, facing 7 kept, isMoving defaulted to false)
    instead of failing; only a wrong field count makes it produce no
    state, and even that is silent. -/
theorem decode_defaults_garbage_fields :
    decodeFields ("p,abc,2.00,7,maybe".toList) = some ("p".toList, 0, 2, 7, false)
    ∧ decodeFields ("p,1.00".toList) = none := by
  decide

/-- C3: the receive loop filters only the constant identity "local", which
    the relay never emits: the echo of a client registered as player1 comes
    back prefixed player1 and is inserted into the cache, so the local
    participant's own relayed state does become a cache entry; only a
    message carrying the sentinel itself is kept out. -/
theorem self_echo_inserted_into_cache :
    (cacheLookup (processMessage (0 : ℕ) 0 ([] : Cache ℕ)
        (prefixMessage (register ⟨[]⟩ 1).2 "100.00,200.00,2,true\n").toList)
      (register ⟨[]⟩ 1).2.toList).isSome = true
    ∧ processMessage (0 : ℕ) 0 ([] : Cache ℕ) ("local,100.00,200.00,2,true\n".toList) = [] := by
  decide

/-- C5: handleInput discards both results of fmt.Fprintf, so a tick whose
    write fails reports no error and leaves the game in exactly the state
    a successful write would: the failure is silently ignored, not
    propagated. -/
theorem publisher_ignores_write_failure :
    (handleInputTick (⟨NewCharacter (0 : ℕ) 0 ⟨400, 300⟩⟩) ⟨true, false, false, false⟩
        (mkRat 1 120) (WriteResult.failed "broken pipe".toList)).2.2 = none
    ∧ handleInputTick (⟨NewCharacter (0 : ℕ) 0 ⟨400, 300⟩⟩) ⟨true, false, false, false⟩
        (mkRat 1 120) (WriteResult.failed "broken pipe".toList)
      = handleInputTick (⟨NewCharacter (0 : ℕ) 0 ⟨400, 300⟩⟩) ⟨true, false, false, false⟩
        (mkRat 1 120) (WriteResult.ok 25) :=
  ⟨rfl, rfl⟩

/-- C9: unregister is idempotent and unregistering an absent endpoint is a
    no-op: deleting from the clients map twice equals deleting once, and
    deleting an absent key leaves the registry unchanged. -/
theorem unregister_idempotent (s : Server) (c : Conn) :
    unregister (unregister s c) c = unregister s c
    ∧ (clientsLookup s.clients c = none → unregister s c = s) := by
  constructor
  · simp [unregister, mapDelete, List.filter_filter]
  · intro h
    cases s with
    | mk l =>
      simp only [unregister, mapDelete, Server.mk.injEq]
      rw [List.filter_eq_self]
      intro a ha
      have hf : List.find? (fun p => p.1 == c) l = none := by
        simpa [clientsLookup] using h
      have := List.find?_eq_none.mp hf a ha
      simpa [bne] using this

/-- Witness for C9 at a concrete registry and absent endpoint. -/
theorem unregister_idempotent_witness :
    unregister (unregister ⟨[(2, "player1")]⟩ 5) 5 = unregister ⟨[(2, "player1")]⟩ 5
    ∧ unregister ⟨[(2, "player1")]⟩ 5 = ⟨[(2, "player1")]⟩ :=
  ⟨(unregister_idempotent ⟨[(2, "player1")]⟩ 5).1,
    (unregister_idempotent ⟨[(2, "player1")]⟩ 5).2 (by decide)⟩


theorem cacheLookup_modify {Tex : Type} (m : Cache Tex) (i id : GoStr)
    (f : Character Tex → Character Tex) :
    cacheLookup (cacheModify m i f) id
      = if id = i then (cacheLookup m id).map f else cacheLookup m id := by
  unfold cacheLookup cacheModify
  rw [List.find?_map]
  have hcomp : ((fun p : GoStr × Character Tex => p.1 == id) ∘
      fun p : GoStr × Character Tex => if p.1 == i then (p.1, f p.2) else p)
      = fun p : GoStr × Character Tex => p.1 == id := by
    funext p
    by_cases h : (p.1 == i) = true <;> simp [Function.comp, h]
  rw [hcomp]
  cases hf : List.find? (fun p : GoStr × Character Tex => p.1 == id) m with
  | none => simp
  | some p =>
    have hp := List.find?_some (p := fun q : GoStr × Character Tex => q.1 == id) hf
    rw [beq_iff_eq] at hp
    by_cases hid : id = i
    · simp [Option.map_map, Function.comp, hp, hid]
    · simp [Option.map_map, Function.comp, hp, hid]

theorem cacheLookup_append_single {Tex : Type} (m : Cache Tex) (k : GoStr) (v : Character Tex)
    (id : GoStr) :
    cacheLookup (m ++ [(k, v)]) id
      = (cacheLookup m id).or (if id = k then some v else none) := by
  unfold cacheLookup
  rw [List.find?_append]
  cases hf : List.find? (fun p : GoStr × Character Tex => p.1 == id) m with
  | none =>
    by_cases h : id = k
    · rw [List.find?_cons_of_pos]
      · simp [h]
      · simp [beq_iff_eq, h]
    · rw [List.find?_cons_of_neg]
      · simp [h]
      · simp only [beq_iff_eq]
        exact fun hk => h hk.symm
  | some p => simp

theorem applyRecord_isSome {Tex : Type} (tb th : Tex) (m : Cache Tex) (rec id : GoStr) :
    (cacheLookup (applyRecord tb th m rec) id).isSome
      = ((cacheLookup m id).isSome || updatesFor id rec) := by
  unfold applyRecord updatesFor
  cases hdec : decodeFields rec with
  | none => simp
  | some tup =>
    obtain ⟨i, x, y, d, b⟩ := tup
    by_cases hloc : i = localSentinel
    · simp [hloc]
    · have hbne : (i != localSentinel) = true := by simp [bne_iff_ne, hloc]
      simp only [hbne, if_true]
      rw [cacheLookup_modify]
      by_cases hid : id = i
      · subst hid
        cases hex : (cacheLookup m id).isSome with
        | false =>
          have hex' : cacheLookup m id = none := by
            cases hcl : cacheLookup m id
            · rfl
            · rw [hcl] at hex; cases hex
          simp [hex, hex', cacheLookup_append_single, Option.isSome_map', hbne]
        | true => simp [hex, Option.isSome_map', hbne]
      · have hbid : (i == id) = false := by
          simp only [beq_eq_false_iff_ne, ne_eq]
          exact fun hk => hid hk.symm
        rw [if_neg hid]
        cases hex : (cacheLookup m i).isSome with
        | false =>
          simp [hex, cacheLookup_append_single, hid, hbid]
        | true => simp [hex, hbid]

theorem foldl_applyRecord_isSome {Tex : Type} (tb th : Tex) (recs : List GoStr) (m : Cache Tex)
    (id : GoStr) :
    (cacheLookup (recs.foldl (applyRecord tb th) m) id).isSome
      = ((cacheLookup m id).isSome || recs.any (updatesFor id)) := by
  induction recs generalizing m with
  | nil => simp
  | cons r rs ih => simp [List.foldl_cons, ih, applyRecord_isSome, List.any_cons, Bool.or_assoc]

theorem processMessage_isSome {Tex : Type} (tb th : Tex) (m : Cache Tex) (msg id : GoStr) :
    (cacheLookup (processMessage tb th m msg) id).isSome
      = ((cacheLookup m id).isSome || receivedIn id msg) := by
  unfold processMessage receivedIn
  exact foldl_applyRecord_isSome tb th _ m id

theorem processAll_isSome {Tex : Type} (tb th : Tex) (msgs : List GoStr) (m : Cache Tex)
    (id : GoStr) :
    (cacheLookup (processAll tb th m msgs) id).isSome
      = ((cacheLookup m id).isSome || receivedAny id msgs) := by
  induction msgs generalizing m with
  | nil => simp [processAll, receivedAny]
  | cons ms rest ih =>
    unfold processAll receivedAny at ih ⊢
    simp [List.foldl_cons, ih, processMessage_isSome, List.any_cons, Bool.or_assoc]

/-- C8: a cache entry for an identity exists iff at least one well-formed,
    unfiltered update for that identity has been received since the cache's
    creation, and processing a message never removes an entry: the entry
    set only grows (an absent participant's last state persists forever). -/
theorem cache_entry_iff_update_received {Tex : Type} (tb th : Tex) (msgs : List GoStr)
    (id : GoStr) (m : Cache Tex) (msg : GoStr) :
    (cacheLookup (processAll tb th [] msgs) id).isSome = receivedAny id msgs
    ∧ (cacheLookup (processMessage tb th m msg) id).isSome
        = ((cacheLookup m id).isSome || receivedIn id msg) := by
  constructor
  · rw [processAll_isSome]
    simp [cacheLookup]
  · exact processMessage_isSome tb th m msg id

/-- C10: applying a received update to an identity that already has a cache
    entry replaces only position, direction and isMoving; the textures,
    moveSpeed, animationSpeed, frameIndex and timeSinceLastFrame of the
    existing entry are untouched. -/
theorem update_preserves_other_fields {Tex : Type} (tb th : Tex) (m : Cache Tex)
    (rec id : GoStr) (ch : Character Tex) (h : cacheLookup m id = some ch) :
    ∃ ch', cacheLookup (applyRecord tb th m rec) id = some ch'
      ∧ ch'.bodyTexture = ch.bodyTexture ∧ ch'.headTexture = ch.headTexture
      ∧ ch'.moveSpeed = ch.moveSpeed ∧ ch'.animationSpeed = ch.animationSpeed
      ∧ ch'.frameIndex = ch.frameIndex ∧ ch'.timeSinceLastFrame = ch.timeSinceLastFrame
      ∧ ∀ x y d b, decodeFields rec = some (id, x, y, d, b) → id ≠ localSentinel →
          ch'.position = ⟨x, y⟩ ∧ ch'.direction = d ∧ ch'.isMoving = b := by
  unfold applyRecord
  cases hdec : decodeFields rec with
  | none =>
    refine ⟨ch, h, rfl, rfl, rfl, rfl, rfl, rfl, ?_⟩
    intro x y d b hx
    cases hx
  | some tup =>
    obtain ⟨i, x0, y0, d0, b0⟩ := tup
    by_cases hloc : i = localSentinel
    · refine ⟨ch, ?_, rfl, rfl, rfl, rfl, rfl, rfl, ?_⟩
      · simp [hloc, h]
      · intro x y d b hx hidloc
        simp only [Option.some.injEq, Prod.mk.injEq] at hx
        exact absurd (hx.1 ▸ hloc) hidloc
    · have hbne : (i != localSentinel) = true := by simp [bne_iff_ne, hloc]
      simp only [hbne, if_true]
      by_cases hid : id = i
      · subst hid
        have hm1 : (if (cacheLookup m id).isSome = true then m
            else m ++ [(id, NewCharacter tb th ⟨x0, y0⟩)]) = m := by simp [h]
        rw [hm1, cacheLookup_modify, if_pos rfl, h]
        refine ⟨_, rfl, rfl, rfl, rfl, rfl, rfl, rfl, ?_⟩
        intro x y d b hx hidloc
        simp only [Option.some.injEq, Prod.mk.injEq, true_and] at hx
        obtain ⟨hx', hy', hd', hb'⟩ := hx
        subst hx'
        subst hy'
        subst hd'
        subst hb'
        exact ⟨rfl, rfl, rfl⟩
      · rw [cacheLookup_modify, if_neg hid]
        cases hex : (cacheLookup m i).isSome with
        | false =>
          simp only [hex, Bool.false_eq_true, if_false]
          rw [cacheLookup_append_single, h]
          refine ⟨ch, rfl, rfl, rfl, rfl, rfl, rfl, rfl, ?_⟩
          intro x y d b hx hidloc
          simp only [Option.some.injEq, Prod.mk.injEq] at hx
          exact absurd hx.1.symm hid
        | true =>
          simp only [hex, if_true]
          refine ⟨ch, h, rfl, rfl, rfl, rfl, rfl, rfl, ?_⟩
          intro x y d b hx hidloc
          simp only [Option.some.injEq, Prod.mk.injEq] at hx
          exact absurd hx.1.symm hid

/-- Witness for C10 at a concrete cache, entry and record. -/
theorem update_preserves_other_fields_witness :
    ∃ ch', cacheLookup (applyRecord (5 : ℕ) 6
        [("p".toList, NewCharacter 1 2 ⟨3, 4⟩)] "p,9.00,8.00,1,true".toList) "p".toList = some ch'
      ∧ ch'.bodyTexture = (NewCharacter 1 2 ⟨3, 4⟩ : Character ℕ).bodyTexture
      ∧ ch'.headTexture = (NewCharacter 1 2 ⟨3, 4⟩ : Character ℕ).headTexture
      ∧ ch'.moveSpeed = (NewCharacter 1 2 ⟨3, 4⟩ : Character ℕ).moveSpeed
      ∧ ch'.animationSpeed = (NewCharacter 1 2 ⟨3, 4⟩ : Character ℕ).animationSpeed
      ∧ ch'.frameIndex = (NewCharacter 1 2 ⟨3, 4⟩ : Character ℕ).frameIndex
      ∧ ch'.timeSinceLastFrame = (NewCharacter 1 2 ⟨3, 4⟩ : Character ℕ).timeSinceLastFrame
      ∧ ∀ x y d b, decodeFields "p,9.00,8.00,1,true".toList = some ("p".toList, x, y, d, b) →
          "p".toList ≠ localSentinel →
          ch'.position = ⟨x, y⟩ ∧ ch'.direction = d ∧ ch'.isMoving = b :=
  update_preserves_other_fields 5 6 [("p".toList, NewCharacter 1 2 ⟨3, 4⟩)]
    "p,9.00,8.00,1,true".toList "p".toList (NewCharacter 1 2 ⟨3, 4⟩) rfl

theorem mem_snapshot_register (s : Server) (d c : Conn) :
    c ∈ snapshotConns (register s d).1 → c ∈ snapshotConns s ∨ c = d := by
  unfold snapshotConns register mapInsert
  intro hmem
  dsimp only at hmem
  by_cases hins : (clientsLookup s.clients d).isSome = true
  · rw [if_pos hins, List.map_map] at hmem
    obtain ⟨p, hp, hpe⟩ := List.mem_map.mp hmem
    by_cases hpd : (p.1 == d) = true
    · right
      simp only [Function.comp_apply, hpd, if_true] at hpe
      exact hpe.symm
    · left
      simp only [Function.comp_apply, hpd, if_false] at hpe
      exact List.mem_map.mpr ⟨p, hp, hpe⟩
  · rw [if_neg hins, List.map_append] at hmem
    rcases List.mem_append.mp hmem with hl | hr
    · exact Or.inl hl
    · right
      simpa using hr

theorem not_mem_snapshot_unregister (s : Server) (d c : Conn) (h : c ∉ snapshotConns s) :
    c ∉ snapshotConns (unregister s d) := by
  unfold snapshotConns at h
  unfold snapshotConns unregister mapDelete
  intro hmem
  obtain ⟨p, hp, hpe⟩ := List.mem_map.mp hmem
  exact h (List.mem_map.mpr ⟨p, List.mem_of_mem_filter hp, hpe⟩)

theorem not_mem_snapshot_unregister_self (s : Server) (c : Conn) :
    c ∉ snapshotConns (unregister s c) := by
  unfold snapshotConns unregister mapDelete
  intro hmem
  obtain ⟨p, hp, hpe⟩ := List.mem_map.mp hmem
  have := List.of_mem_filter hp
  simp only [bne_iff_ne, ne_eq] at this
  exact this hpe

theorem applySrvOps_not_mem (s : Server) (ops : List SrvOp) (c : Conn)
    (hs : c ∉ snapshotConns s) (hops : ∀ d, SrvOp.reg d ∈ ops → d ≠ c) :
    c ∉ snapshotConns (applySrvOps s ops) := by
  induction ops generalizing s with
  | nil => exact hs
  | cons op rest ih =>
    cases op with
    | reg d =>
      refine ih ((register s d).1) ?_ (fun e he => hops e (List.mem_cons_of_mem _ he))
      intro hmem
      rcases mem_snapshot_register s d c hmem with hin | hcd
      · exact hs hin
      · exact hops d (List.mem_cons_self _ _) hcd.symm
    | unreg d =>
      exact ih (unregister s d) (not_mem_snapshot_unregister s d c hs)
        (fun e he => hops e (List.mem_cons_of_mem _ he))

/-- C6: when a connection's read fails, handleClient removes the endpoint
    from the registry before its loop terminates, so the very next snapshot
    excludes it, and as long as that conn is not registered again, no later
    broadcast (after any interleaved registrations and removals of other
    conns) attempts a write to it. -/
theorem read_error_unregisters_endpoint (s : Server) (c : Conn) (id : String)
    (failing : Conn → Bool) (ops : List SrvOp)
    (hops : ∀ d, SrvOp.reg d ∈ ops → d ≠ c) :
    (relayStep s c id none failing).2.2 = true
    ∧ c ∉ snapshotConns (relayStep s c id none failing).1
    ∧ ∀ (failing' : Conn → Bool) (msg : String) w,
        w ∈ broadcastWrites (applySrvOps (relayStep s c id none failing).1 ops) failing' msg →
        w.1 ≠ c := by
  refine ⟨rfl, not_mem_snapshot_unregister_self s c, ?_⟩
  intro failing' msg w hw
  have hnot : c ∉ snapshotConns (applySrvOps (unregister s c) ops) :=
    applySrvOps_not_mem (unregister s c) ops c (not_mem_snapshot_unregister_self s c) hops
  obtain ⟨p, hp, hpe⟩ := List.mem_map.mp hw
  intro hwc
  exact hnot (List.mem_map.mpr ⟨p, hp, by rw [← hpe] at hwc; exact hwc⟩)

/-- Witness for C6 at a concrete registry, failed conn and later operations. -/
theorem read_error_unregisters_endpoint_witness :
    (relayStep ⟨[(1, "player1"), (2, "player2")]⟩ 1 "player1" none (fun _ => false)).2.2 = true
    ∧ 1 ∉ snapshotConns (relayStep ⟨[(1, "player1"), (2, "player2")]⟩ 1 "player1" none
        (fun _ => false)).1
    ∧ (broadcastWrites (applySrvOps (relayStep ⟨[(1, "player1"), (2, "player2")]⟩ 1 "player1"
        none (fun _ => false)).1 [SrvOp.reg 3, SrvOp.unreg 2]) (fun _ => false) "m").all
        (fun w => w.1 != 1) = true := by
  have h := read_error_unregisters_endpoint ⟨[(1, "player1"), (2, "player2")]⟩ 1 "player1"
    (fun _ => false) [SrvOp.reg 3, SrvOp.unreg 2]
    (by
      intro d hd
      simp only [List.mem_cons, List.not_mem_nil, or_false, reduceCtorEq,
        SrvOp.reg.injEq] at hd
      subst hd
      decide)
  refine ⟨h.1, h.2.1, ?_⟩
  rw [List.all_eq_true]
  intro w hw
  simpa [bne_iff_ne] using h.2.2 (fun _ => false) "m" w hw

/-- C7: on a successful read of one record, handleClient emits exactly one
    outbound message, the raw record prefixed with the sender's identity and
    a comma, attempts a write of it to every currently registered endpoint
    including the sender, and whatever writes fail the registry is left
    unchanged and the loop continues. -/
theorem relay_fanout_single_message (s : Server) (c : Conn) (id : String) (msg : String)
    (failing : Conn → Bool) (h : (c, id) ∈ s.clients) :
    (relayStep s c id (some msg) failing).1 = s
    ∧ (relayStep s c id (some msg) failing).2.2 = false
    ∧ (relayStep s c id (some msg) failing).2.1.map (fun w => w.1) = snapshotConns s
    ∧ (∀ w ∈ (relayStep s c id (some msg) failing).2.1, w.2.1 = prefixMessage id msg)
    ∧ (c, prefixMessage id msg, !failing c) ∈ (relayStep s c id (some msg) failing).2.1 := by
  refine ⟨rfl, rfl, ?_, ?_, ?_⟩
  · simp [relayStep, broadcastWrites, snapshotConns, List.map_map, Function.comp]
  · intro w hw
    obtain ⟨p, _, hpe⟩ := List.mem_map.mp hw
    rw [← hpe]
  · exact List.mem_map.mpr ⟨(c, id), h, rfl⟩

/-- Witness for C7 at a concrete registry with the sender registered. -/
theorem relay_fanout_single_message_witness :
    (relayStep ⟨[(1, "player1"), (2, "player2")]⟩ 1 "player1" (some "1.00,2.00,0,false\n")
        (fun _ => false)).1 = ⟨[(1, "player1"), (2, "player2")]⟩
    ∧ (relayStep ⟨[(1, "player1"), (2, "player2")]⟩ 1 "player1" (some "1.00,2.00,0,false\n")
        (fun _ => false)).2.2 = false
    ∧ (relayStep ⟨[(1, "player1"), (2, "player2")]⟩ 1 "player1" (some "1.00,2.00,0,false\n")
        (fun _ => false)).2.1.map (fun w => w.1)
      = snapshotConns ⟨[(1, "player1"), (2, "player2")]⟩
    ∧ (1, prefixMessage "player1" "1.00,2.00,0,false\n", !(fun _ => false) 1)
      ∈ (relayStep ⟨[(1, "player1"), (2, "player2")]⟩ 1 "player1" (some "1.00,2.00,0,false\n")
        (fun _ => false)).2.1 := by
  have h := relay_fanout_single_message ⟨[(1, "player1"), (2, "player2")]⟩ 1 "player1"
    "1.00,2.00,0,false\n" (fun _ => false) (by decide)
  exact ⟨h.1, h.2.1, h.2.2.1, h.2.2.2.2⟩

theorem digitChar_toNat (n : ℕ) (h : n < 10) : (digitChar n).toNat = 48 + n := by
  interval_cases n <;> decide

theorem isDigitCh_digitChar (n : ℕ) (h : n < 10) : isDigitCh (digitChar n) = true := by
  interval_cases n <;> decide

theorem natDigitsAux_isDigit (fuel : ℕ) :
    ∀ n c, n < fuel → c ∈ natDigitsAux fuel n → isDigitCh c = true := by
  induction fuel with
  | zero => intro n c h; omega
  | succ fuel ih =>
    intro n c h hmem
    by_cases hn : n < 10
    · simp only [natDigitsAux, hn, if_true, List.mem_singleton] at hmem
      exact hmem ▸ isDigitCh_digitChar n hn
    · simp only [natDigitsAux, hn, if_false, List.mem_append, List.mem_singleton] at hmem
      rcases hmem with hrec | hlast
      · exact ih (n / 10) c (by omega) hrec
      · exact hlast ▸ isDigitCh_digitChar (n % 10) (Nat.mod_lt n (by omega))

theorem natDigits_isDigit (n : ℕ) (c : Char) (h : c ∈ natDigits n) : isDigitCh c = true :=
  natDigitsAux_isDigit (n + 1) n c (Nat.lt_succ_self n) h

theorem digitsVal_append_single (l : List Char) (c : Char) :
    digitsVal (l ++ [c]) = 10 * digitsVal l + (c.toNat - 48) := by
  simp [digitsVal, List.foldl_append]

theorem digitsVal_natDigitsAux (fuel : ℕ) :
    ∀ n, n < fuel → digitsVal (natDigitsAux fuel n) = n := by
  induction fuel with
  | zero => intro n h; omega
  | succ fuel ih =>
    intro n h
    by_cases hn : n < 10
    · simp [natDigitsAux, hn, digitsVal, digitChar_toNat n hn]
    · have hd : n / 10 < fuel := by
        have := Nat.div_lt_self (by omega : 0 < n) (by omega : 1 < 10)
        omega
      simp only [natDigitsAux, hn, if_false, digitsVal_append_single, ih (n / 10) hd,
        digitChar_toNat (n % 10) (Nat.mod_lt n (by omega))]
      omega

theorem digitsVal_natDigits (n : ℕ) : digitsVal (natDigits n) = n :=
  digitsVal_natDigitsAux (n + 1) n (Nat.lt_succ_self n)

theorem natDigits_ne_nil (n : ℕ) : natDigits n ≠ [] := by
  unfold natDigits natDigitsAux
  by_cases hn : n < 10 <;> simp [hn]

theorem natDigitsAux_small (fuel n : ℕ) (hf : 0 < fuel) (hn : n < 10) :
    natDigitsAux fuel n = [digitChar n] := by
  cases fuel with
  | zero => omega
  | succ fuel => simp [natDigitsAux, hn]

theorem natDigits_length_two (k : ℕ) (h1 : 10 ≤ k) (h2 : k < 100) :
    (natDigits k).length = 2 := by
  unfold natDigits
  have hk : ¬ k < 10 := by omega
  simp only [natDigitsAux, hk, if_false]
  rw [natDigitsAux_small k (k / 10) (by omega) (by omega)]
  rfl

theorem pad2_isDigit (k : ℕ) (c : Char) (h : c ∈ pad2 k) : isDigitCh c = true := by
  unfold pad2 at h
  by_cases hk : k < 10
  · simp only [hk, if_true, List.mem_cons, List.mem_singleton, List.not_mem_nil,
      or_false] at h
    rcases h with h | h
    · subst h; decide
    · exact h ▸ isDigitCh_digitChar k hk
  · simp only [hk, if_false] at h
    exact natDigits_isDigit k c h

theorem pad2_length (k : ℕ) (h : k < 100) : (pad2 k).length = 2 := by
  unfold pad2
  by_cases hk : k < 10
  · simp [hk]
  · simp only [hk, if_false]
    exact natDigits_length_two k (by omega) h

theorem digitsVal_pad2 (k : ℕ) (h : k < 100) : digitsVal (pad2 k) = k := by
  unfold pad2
  by_cases hk : k < 10
  · simp [hk, digitsVal, digitChar_toNat k hk]
  · simp only [hk, if_false]
    exact digitsVal_natDigits k

theorem splitChar_not_mem (sep : Char) (l : List Char) (h : sep ∉ l) : splitChar sep l = [l] := by
  induction l with
  | nil => rfl
  | cons c rest ih =>
    have hc : ¬ c = sep := fun he => h (he ▸ List.mem_cons_self c rest)
    have hrest : sep ∉ rest := fun hm => h (List.mem_cons_of_mem c hm)
    simp [splitChar, hc, ih hrest]

theorem splitChar_append_cons (sep : Char) (a b : List Char) (h : sep ∉ a) :
    splitChar sep (a ++ sep :: b) = a :: splitChar sep b := by
  induction a with
  | nil => simp [splitChar]
  | cons c a' ih =>
    have hc : ¬ c = sep := fun he => h (he ▸ List.mem_cons_self c a')
    have ha' : sep ∉ a' := fun hm => h (List.mem_cons_of_mem c hm)
    simp [splitChar, hc, ih ha']

theorem trim_head_no_space (a b : List Char) (h : ∀ c ∈ a, isSpaceCh c = false) :
    (a ++ ',' :: b).dropWhile isSpaceCh = a ++ ',' :: b := by
  cases a with
  | nil => simp [List.dropWhile_cons, show isSpaceCh ',' = false from by decide]
  | cons c a' =>
    have hc : isSpaceCh c = false := h c (List.mem_cons_self c a')
    simp [List.dropWhile_cons, hc]

theorem dropTrailing_append_true (p : Char → Bool) (l : List Char) (c : Char)
    (hc : p c = true) : dropTrailing p (l ++ [c]) = dropTrailing p l := by
  simp [dropTrailing, List.reverse_append, List.dropWhile_cons, hc]

theorem dropTrailing_append_false (p : Char → Bool) (l : List Char) (c : Char)
    (hc : p c = false) : dropTrailing p (l ++ [c]) = l ++ [c] := by
  simp [dropTrailing, List.reverse_append, List.dropWhile_cons, hc]

theorem splitSign_digit_head (c : Char) (r : List Char) (h : isDigitCh c = true) :
    splitSign (c :: r) = (false, c :: r) := by
  have h1 : ¬ c = '-' := fun he => by subst he; exact absurd h (by decide)
  have h2 : ¬ c = '+' := fun he => by subst he; exact absurd h (by decide)
  simp [splitSign, h1, h2]

theorem fmtZ2_chars (z : ℤ) (c : Char) (h : c ∈ fmtZ2 z) :
    isDigitCh c = true ∨ c = '-' ∨ c = '.' := by
  unfold fmtZ2 at h
  rcases List.mem_append.mp h with h12 | h4
  · rcases List.mem_append.mp h12 with h1 | h3
    · by_cases hz : z < 0
      · rw [if_pos hz] at h1
        exact Or.inr (Or.inl (List.mem_singleton.mp h1))
      · rw [if_neg hz] at h1
        exact absurd h1 (List.not_mem_nil c)
    · exact Or.inl (natDigits_isDigit _ c h3)
  · rcases List.mem_cons.mp h4 with h5 | h6
    · exact Or.inr (Or.inr h5)
    · exact Or.inl (pad2_isDigit _ c h6)

theorem fmtZ2_no_comma (z : ℤ) : ',' ∉ fmtZ2 z := by
  intro h
  rcases fmtZ2_chars z ',' h with h1 | h1 | h1 <;> exact absurd h1 (by decide)

theorem fmtZ2_no_semi (z : ℤ) : ';' ∉ fmtZ2 z := by
  intro h
  rcases fmtZ2_chars z ';' h with h1 | h1 | h1 <;> exact absurd h1 (by decide)

theorem fmtZ2_no_dot_int (z : ℤ) : '.' ∉ natDigits (z.natAbs / 100) := by
  intro h
  exact absurd (natDigits_isDigit _ '.' h) (by decide)

theorem pad2_no_dot (k : ℕ) : '.' ∉ pad2 k := by
  intro h
  exact absurd (pad2_isDigit k '.' h) (by decide)

theorem parseDecimal_eval_neg (ip fp : List Char) (hipd : ip.all isDigitCh = true)
    (hfpd : fp.all isDigitCh = true) (hipne : ip ≠ [])
    (hdotip : '.' ∉ ip) (hdotfp : '.' ∉ fp) :
    parseDecimal? ('-' :: (ip ++ '.' :: fp)) = some (decimalVal true ip fp) := by
  have hsign : splitSign ('-' :: (ip ++ '.' :: fp)) = (true, ip ++ '.' :: fp) := by
    simp [splitSign]
  have hsplit : splitChar '.' (ip ++ '.' :: fp) = [ip, fp] := by
    rw [splitChar_append_cons '.' ip fp hdotip, splitChar_not_mem '.' fp hdotfp]
  unfold parseDecimal?
  simp only [hsign, hsplit]
  simp [hipne, hipd, hfpd, List.isEmpty_iff]

theorem parseDecimal_eval_pos (ip fp : List Char) (hipd : ip.all isDigitCh = true)
    (hfpd : fp.all isDigitCh = true) (hipne : ip ≠ [])
    (hdotip : '.' ∉ ip) (hdotfp : '.' ∉ fp) :
    parseDecimal? (ip ++ '.' :: fp) = some (decimalVal false ip fp) := by
  obtain ⟨c, t, rfl⟩ := List.exists_cons_of_ne_nil hipne
  have hcd : isDigitCh c = true := by
    rw [List.all_eq_true] at hipd
    exact hipd c (List.mem_cons_self c t)
  have hsign : splitSign ((c :: t) ++ '.' :: fp) = (false, (c :: t) ++ '.' :: fp) := by
    rw [List.cons_append]
    exact splitSign_digit_head c (t ++ '.' :: fp) hcd
  have hsplit : splitChar '.' ((c :: t) ++ '.' :: fp) = [c :: t, fp] := by
    rw [splitChar_append_cons '.' (c :: t) fp hdotip, splitChar_not_mem '.' fp hdotfp]
  unfold parseDecimal?
  simp only [hsign, hsplit]
  simp [hipd, hfpd, List.isEmpty_iff]

theorem parseDecimal_fmtZ2 (z : ℤ) : parseDecimal? (fmtZ2 z) = some (Rat.divInt z 100) := by
  have hmod : z.natAbs % 100 < 100 := Nat.mod_lt _ (by omega)
  have hipd : (natDigits (z.natAbs / 100)).all isDigitCh = true := by
    rw [List.all_eq_true]
    intro c hc
    exact natDigits_isDigit _ c hc
  have hfpd : (pad2 (z.natAbs % 100)).all isDigitCh = true := by
    rw [List.all_eq_true]
    intro c hc
    exact pad2_isDigit _ c hc
  have hipne : natDigits (z.natAbs / 100) ≠ [] := natDigits_ne_nil _
  have hdotip : '.' ∉ natDigits (z.natAbs / 100) := fmtZ2_no_dot_int z
  have hdotfp : '.' ∉ pad2 (z.natAbs % 100) := pad2_no_dot _
  have hlen : (pad2 (z.natAbs % 100)).length = 2 := pad2_length _ hmod
  have hvip : digitsVal (natDigits (z.natAbs / 100)) = z.natAbs / 100 := digitsVal_natDigits _
  have hvfp : digitsVal (pad2 (z.natAbs % 100)) = z.natAbs % 100 := digitsVal_pad2 _ hmod
  have hN : ((z.natAbs / 100 : ℕ) : ℤ) * 100 + ((z.natAbs % 100 : ℕ) : ℤ) = (z.natAbs : ℤ) := by
    have := Nat.div_add_mod z.natAbs 100
    exact_mod_cast by omega
  by_cases hz : z < 0
  · have hform : fmtZ2 z
        = '-' :: (natDigits (z.natAbs / 100) ++ '.' :: pad2 (z.natAbs % 100)) := by
      unfold fmtZ2
      rw [if_pos hz, List.append_assoc]
      rfl
    rw [hform, parseDecimal_eval_neg _ _ hipd hfpd hipne hdotip hdotfp]
    unfold decimalVal
    rw [hvip, hvfp, hlen]
    have harg : (if (true : Bool) then (-1 : ℤ) else 1)
        * (((z.natAbs / 100 : ℕ) : ℤ) * 10 ^ 2 + ((z.natAbs % 100 : ℕ) : ℤ)) = z := by
      rw [if_pos rfl]
      have habs : (z.natAbs : ℤ) = -z := by omega
      rw [show ((10 : ℤ) ^ 2) = 100 from by norm_num, hN, habs]
      ring
    rw [harg]
    norm_num
  · have hform : fmtZ2 z
        = natDigits (z.natAbs / 100) ++ '.' :: pad2 (z.natAbs % 100) := by
      unfold fmtZ2
      rw [if_neg hz, List.nil_append]
    rw [hform, parseDecimal_eval_pos _ _ hipd hfpd hipne hdotip hdotfp]
    unfold decimalVal
    rw [hvip, hvfp, hlen]
    have harg : (if (false : Bool) then (-1 : ℤ) else 1)
        * (((z.natAbs / 100 : ℕ) : ℤ) * 10 ^ 2 + ((z.natAbs % 100 : ℕ) : ℤ)) = z := by
      rw [if_neg (by simp)]
      have habs : (z.natAbs : ℤ) = z := by omega
      rw [show ((10 : ℤ) ^ 2) = 100 from by norm_num, hN, habs]
      ring
    rw [harg]
    norm_num

theorem goParseFloat_fmtF2 (q : ℚ) : goParseFloat (fmtF2 q) = round2 q := by
  unfold goParseFloat fmtF2 round2
  rw [parseDecimal_fmtZ2]
  rw [Rat.divInt_eq_div]
  norm_num

theorem round2_fix (k : ℤ) : round2 ((k : ℚ) / 100) = (k : ℚ) / 100 := by
  unfold round2
  rw [show ((k : ℚ) / 100) * 100 = (k : ℚ) from by field_simp]
  have hr : rndNE (k : ℚ) = k := by
    unfold rndNE
    rw [Int.floor_intCast]
    norm_num
  rw [hr]

theorem fmtF2_no_comma (q : ℚ) : ',' ∉ fmtF2 q := fmtZ2_no_comma _

theorem fmtF2_no_semi (q : ℚ) : ';' ∉ fmtF2 q := fmtZ2_no_semi _

theorem goAtoi_fmtInt_facing (d : ℤ) (hd : d = 0 ∨ d = 1 ∨ d = 2 ∨ d = 3) :
    goAtoi (fmtInt d) = d ∧ ',' ∉ fmtInt d ∧ ';' ∉ fmtInt d := by
  rcases hd with rfl | rfl | rfl | rfl <;> exact ⟨by decide, by decide, by decide⟩

theorem fmtBool_eq (b : Bool) :
    fmtBool b = (if b then ['t', 'r', 'u'] else ['f', 'a', 'l', 's']) ++ ['e'] := by
  cases b <;> rfl

theorem goParseBool_fmtBool (b : Bool) : goParseBool (fmtBool b) = b := by
  cases b <;> decide

theorem fmtBool_no_comma (b : Bool) : ',' ∉ fmtBool b := by
  cases b <;> decide

theorem fmtBool_no_semi (b : Bool) : ';' ∉ fmtBool b := by
  cases b <;> decide

theorem head?_wire (a b : List Char) (h : ∀ c ∈ a, isSpaceCh c = false) :
    ∀ c0, (a ++ ',' :: b).head? = some c0 → isSpaceCh c0 = false := by
  cases a with
  | nil =>
    intro c0 hc0
    simp only [List.nil_append, List.head?_cons, Option.some.injEq] at hc0
    subst hc0
    decide
  | cons c t =>
    intro c0 hc0
    simp only [List.cons_append, List.head?_cons, Option.some.injEq] at hc0
    subst hc0
    exact h c (List.mem_cons_self c t)

theorem dropTrailing_no_space_last (l : List Char)
    (hlast : ∀ c, l.getLast? = some c → isSpaceCh c = false) :
    dropTrailing isSpaceCh l = l := by
  unfold dropTrailing
  cases hr : l.reverse with
  | nil =>
    have hl : l = [] := by simpa using congrArg List.reverse hr
    simp [hl]
  | cons c r =>
    have hlc : l.getLast? = some c := by
      rw [← List.head?_reverse, hr]
      rfl
    rw [List.dropWhile_cons, hlast c hlc]
    simp only [Bool.false_eq_true, if_false]
    rw [← hr, List.reverse_reverse]

theorem goTrimSpace_clean (a : List Char)
    (hhead : ∀ c, a.head? = some c → isSpaceCh c = false)
    (hlast : ∀ c, a.getLast? = some c → isSpaceCh c = false) :
    goTrimSpace (a ++ ['\n']) = a := by
  cases a with
  | nil => decide
  | cons c t =>
    have hc : isSpaceCh c = false := hhead c rfl
    have h1 : ((c :: t) ++ ['\n']).dropWhile isSpaceCh = (c :: t) ++ ['\n'] := by
      simp [List.dropWhile_cons, hc]
    unfold goTrimSpace
    rw [h1, dropTrailing_append_true isSpaceCh (c :: t) '\n' (by decide)]
    exact dropTrailing_no_space_last (c :: t) hlast

/-- C4: for every identity free of separators and spaces and every state with
    facing in the wire range, decoding (through the receive framing) the relay
    message built by prefixing the identity to the encoded state yields exactly
    the identity, the two position coordinates rounded to 2 decimal digits,
    and the facing and movement flag unchanged; and rounding is the identity
    on values already expressible with 2 fractional digits (the trip is lossy
    only beyond 2 digits). -/
theorem decode_encode_roundtrip (id : GoStr) (x y : ℚ) (d : ℤ) (b : Bool)
    (hid : ∀ c ∈ id, isSpaceCh c = false ∧ c ≠ ',' ∧ c ≠ ';')
    (hd : d = 0 ∨ d = 1 ∨ d = 2 ∨ d = 3) :
    (frameRecords (id ++ ',' :: encodeState x y d b)).map decodeFields
      = [some (id, round2 x, round2 y, d, b)]
    ∧ ∀ k : ℤ, round2 ((k : ℚ) / 100) = (k : ℚ) / 100 := by
  obtain ⟨hatoi, hfic, hfis⟩ := goAtoi_fmtInt_facing d hd
  refine ⟨?_, fun k => round2_fix k⟩
  have hshape : id ++ ',' :: encodeState x y d b
      = (id ++ ',' :: (fmtF2 x ++ (',' :: (fmtF2 y
          ++ (',' :: (fmtInt d ++ (',' :: fmtBool b))))))) ++ ['\n'] := by
    simp [encodeState, List.append_assoc]
  have hhead : ∀ c0, (id ++ ',' :: (fmtF2 x ++ (',' :: (fmtF2 y
      ++ (',' :: (fmtInt d ++ (',' :: fmtBool b))))))).head? = some c0 →
      isSpaceCh c0 = false :=
    head?_wire id _ (fun c hc => (hid c hc).1)
  have hlast : ∀ c0, (id ++ ',' :: (fmtF2 x ++ (',' :: (fmtF2 y
      ++ (',' :: (fmtInt d ++ (',' :: fmtBool b))))))).getLast? = some c0 →
      isSpaceCh c0 = false := by
    intro c0 hc0
    have hW2 : id ++ ',' :: (fmtF2 x ++ (',' :: (fmtF2 y
        ++ (',' :: (fmtInt d ++ (',' :: fmtBool b))))))
        = (id ++ ',' :: (fmtF2 x ++ (',' :: (fmtF2 y ++ (',' :: (fmtInt d
            ++ (',' :: (if b then ['t', 'r', 'u'] else ['f', 'a', 'l', 's'])))))))) ++ ['e'] := by
      simp [fmtBool_eq, List.append_assoc]
    rw [hW2, List.getLast?_concat] at hc0
    injection hc0 with hc1
    subst hc1
    decide
  have hsemi : ';' ∉ id ++ ',' :: (fmtF2 x ++ (',' :: (fmtF2 y
      ++ (',' :: (fmtInt d ++ (',' :: fmtBool b)))))) := by
    intro hmem
    simp only [List.mem_append, List.mem_cons] at hmem
    rcases hmem with h1 | h1 | h1 | h1 | h1 | h1 | h1 | h1 | h1
    · exact (hid ';' h1).2.2 rfl
    · exact absurd h1 (by decide)
    · exact fmtF2_no_semi x h1
    · exact absurd h1 (by decide)
    · exact fmtF2_no_semi y h1
    · exact absurd h1 (by decide)
    · exact hfis h1
    · exact absurd h1 (by decide)
    · exact fmtBool_no_semi b h1
  have hdata : splitChar ',' (id ++ ',' :: (fmtF2 x ++ (',' :: (fmtF2 y
      ++ (',' :: (fmtInt d ++ (',' :: fmtBool b)))))))
      = [id, fmtF2 x, fmtF2 y, fmtInt d, fmtBool b] := by
    rw [splitChar_append_cons ',' id _ (fun hm => ((hid ',' hm).2.1 rfl))]
    rw [splitChar_append_cons ',' (fmtF2 x) _ (fmtF2_no_comma x)]
    rw [splitChar_append_cons ',' (fmtF2 y) _ (fmtF2_no_comma y)]
    rw [splitChar_append_cons ',' (fmtInt d) _ hfic]
    rw [splitChar_not_mem ',' (fmtBool b) (fmtBool_no_comma b)]
  rw [hshape]
  unfold frameRecords
  rw [goTrimSpace_clean _ hhead hlast]
  rw [splitChar_not_mem ';' _ hsemi]
  simp only [List.map_cons, List.map_nil, List.cons.injEq, and_true]
  unfold decodeFields
  rw [hdata]
  simp only [List.length_cons, List.length_nil, List.headD_cons, List.getD_cons_succ,
    List.getD_cons_zero, if_pos rfl]
  rw [goParseFloat_fmtF2, goParseFloat_fmtF2, hatoi, goParseBool_fmtBool]
  simp

/-- Witness for C4 at a concrete identity and state. -/
theorem decode_encode_roundtrip_witness :
    ((frameRecords ("player1".toList ++ ',' :: encodeState (mkRat 157 50) (-3) 2 true)).map
        decodeFields
      = [some ("player1".toList, round2 (mkRat 157 50), round2 (-3), 2, true)])
    ∧ ∀ k : ℤ, round2 ((k : ℚ) / 100) = (k : ℚ) / 100 :=
  decode_encode_roundtrip "player1".toList (mkRat 157 50) (-3) 2 true (by decide)
    (Or.inr (Or.inr (Or.inl rfl)))
